import Mathlib

/-!
Verification development for the Fish multiplayer game backend
(Cloudflare Worker, `GameHandler` class).

The game logic of the worker is embedded shallowly:

* a `GameState` mirrors the `gameState` object created by `createGame`
  (the `code` and `created` fields, which no game logic reads, are omitted);
* `hands` is a partial map `String → Option (List String)`, `none` playing
  the role of a JavaScript `undefined` entry;
* each WebSocket action (`joinGame`, `assignTeams`, `startGame`,
  `askForCard`, `makeClaim`) becomes a pure function from the fetched state
  to the new state together with the list of outbound events; a JavaScript
  `TypeError` escaping to the `handleMessage` catch-all is modelled as an
  `errorEv "Failed to process request"` reply, with exactly the mutations
  performed before the throw kept (the in-memory store aliases the state
  object, so partial mutations persist);
* the two random choices (the team shuffle and the deck shuffle) become
  explicit parameters, constrained to be permutations in the reachability
  relation `Reach`;
* two ghost fields extend the state for stating conservation of cards:
  `removed` accumulates the cards actually deleted from hands by claims and
  `undealt` holds the cards that dealing never handed out (initially the
  whole deck).  Neither exists in the source; no transition reads them.
-/

namespace Fish

/-- One outbound WebSocket message, reduced to the fields the claims need. -/
inductive Event where
  | errorEv (msg : String)
  | gameCreated (host : String)
  | playerJoined (name : String) (players : List String)
  | teamsAssigned (team1 team2 : List String)
  | gameStarted
  | turnUpdate (log : String)
  | gameEnded (winner : String) (t1Score t2Score : Nat)
  deriving Repr, DecidableEq

/-- Partial map from player name to hand, `none` for a missing entry. -/
abbrev Hands := String → Option (List String)

/-- The `gameState` object of the worker, plus the two ghost fields. -/
structure GameState where
  players : List String
  team1 : List String
  team2 : List String
  hands : Hands
  currentTurn : Nat
  claimed1 : List String
  claimed2 : List String
  started : Bool
  host : String
  removed : List String
  undealt : List String

/-- The six cards of the low hearts half-suit. -/
def lowHearts : List String := ["2♥", "3♥", "4♥", "5♥", "6♥", "7♥"]
/-- The six cards of the high hearts half-suit. -/
def highHearts : List String := ["9♥", "10♥", "J♥", "Q♥", "K♥", "A♥"]
/-- The six cards of the low diamonds half-suit. -/
def lowDiamonds : List String := ["2♦", "3♦", "4♦", "5♦", "6♦", "7♦"]
/-- The six cards of the high diamonds half-suit. -/
def highDiamonds : List String := ["9♦", "10♦", "J♦", "Q♦", "K♦", "A♦"]
/-- The six cards of the low clubs half-suit. -/
def lowClubs : List String := ["2♣", "3♣", "4♣", "5♣", "6♣", "7♣"]
/-- The six cards of the high clubs half-suit. -/
def highClubs : List String := ["9♣", "10♣", "J♣", "Q♣", "K♣", "A♣"]
/-- The six cards of the low spades half-suit. -/
def lowSpades : List String := ["2♠", "3♠", "4♠", "5♠", "6♠", "7♠"]
/-- The six cards of the high spades half-suit. -/
def highSpades : List String := ["9♠", "10♠", "J♠", "Q♠", "K♠", "A♠"]

/-- `getHalfSuits()[suit]`: the cards of a half-suit name, `none` when the
name is not one of the eight keys (JavaScript `undefined`). -/
def getHalfSuits : String → Option (List String)
  | "low-hearts" => some lowHearts
  | "high-hearts" => some highHearts
  | "low-diamonds" => some lowDiamonds
  | "high-diamonds" => some highDiamonds
  | "low-clubs" => some lowClubs
  | "high-clubs" => some highClubs
  | "low-spades" => some lowSpades
  | "high-spades" => some highSpades
  | _ => none

/-- `createDeck()`: the 48-card deck, the half-suits concatenated in object
insertion order. -/
def createDeck : List String :=
  lowHearts ++ highHearts ++ lowDiamonds ++ highDiamonds ++
    lowClubs ++ highClubs ++ lowSpades ++ highSpades

/-- Point update of a hands map (`gameState.hands[k] = v`). -/
def upd (hs : Hands) (k : String) (v : List String) : Hands :=
  fun x => if x = k then some v else hs x

/-- The fresh `gameState` object built by `createGame` (ghost fields:
nothing removed yet, the whole deck still undealt). -/
def initState (host : String) : GameState :=
  { players := [host], team1 := [], team2 := [], hands := fun _ => none,
    currentTurn := 0, claimed1 := [], claimed2 := [], started := false,
    host := host, removed := [], undealt := createDeck }

/-- `createGame` at the store level: always succeeds, stores a fresh
session and replies `gameCreated`. -/
def createGameStore (host : String) : Option GameState × List Event :=
  (some (initState host), [Event.gameCreated host])

/-- `joinGame` on an existing session: duplicate-name and capacity checks,
then append; the source has no check of `started`. -/
def joinSession (s : GameState) (name : String) : GameState × List Event :=
  if s.players.contains name then
    (s, [Event.errorEv "Name already taken"])
  else if 12 ≤ s.players.length then
    (s, [Event.errorEv "Game is full"])
  else
    ({ s with players := s.players ++ [name] },
     [Event.playerJoined name (s.players ++ [name])])

/-- `joinGame` including the not-found reply for an absent session. -/
def joinGame : Option GameState → String → Option GameState × List Event
  | none, _ => (none, [Event.errorEv "Game not found"])
  | some s, name => ((joinSession s name).1, (joinSession s name).2)

/-- Elements at even positions (`players.filter((_, i) => i % 2 === 0)`). -/
def evenPositions : List String → List String
  | [] => []
  | [a] => [a]
  | a :: _ :: rest => a :: evenPositions rest

/-- Elements at odd positions (`players.filter((_, i) => i % 2 === 1)`). -/
def oddPositions : List String → List String
  | [] => []
  | [_] => []
  | _ :: b :: rest => b :: oddPositions rest

/-- `assignTeams` on an existing session; `order` is the player list after
the optional random shuffle (equal to `players` when `random` is false). -/
def assignSession (s : GameState) (order : List String) : GameState × List Event :=
  if s.players.length < 4 then
    (s, [Event.errorEv "Need at least 4 players"])
  else
    ({ s with team1 := evenPositions order, team2 := oddPositions order },
     [Event.teamsAssigned (evenPositions order) (oddPositions order)])

/-- `assignTeams` including the silent return for an absent session. -/
def assignTeams : Option GameState → List String → Option GameState × List Event
  | none, _ => (none, [])
  | some s, order => ((assignSession s order).1, (assignSession s order).2)

/-- The dealing loop: player `i` receives
`deck.slice(i * cpp, (i + 1) * cpp)`. -/
def dealFrom (deck : List String) (cpp : Nat) : List String → Nat → Hands → Hands
  | [], _, hs => hs
  | p :: rest, i, hs =>
      dealFrom deck cpp rest (i + 1) (upd hs p ((deck.drop (i * cpp)).take cpp))

/-- `startGame` on an existing session; `deck` is the shuffled deck.  A
second start is a silent no-op.  Ghost update: `undealt` becomes the
remainder that the integer division never deals. -/
def startSession (s : GameState) (deck : List String) : GameState × List Event :=
  if s.started then (s, [])
  else
    let cpp := deck.length / s.players.length
    ({ s with hands := dealFrom deck cpp s.players 0 s.hands,
              currentTurn := 0, started := true,
              undealt := deck.drop (s.players.length * cpp) },
     [Event.gameStarted])

/-- `startGame` including the silent return for an absent session. -/
def startGame : Option GameState → List String → Option GameState × List Event
  | none, _ => (none, [])
  | some s, deck => ((startSession s deck).1, (startSession s deck).2)

/-- `askForCard` on an existing session.  A lookup of an `undefined` hand
throws in the source and surfaces as the catch-all error reply.  In the
transfer branch the asker's hand is re-read after the target's hand was
reassigned, exactly as the source mutates `gameState.hands`. -/
def askSession (s : GameState) (target card : String) : GameState × List Event :=
  match s.players[s.currentTurn]? with
  | none => (s, [Event.errorEv "Failed to process request"])
  | some asker =>
    match s.hands asker with
    | none => (s, [Event.errorEv "Failed to process request"])
    | some askerHand =>
      if askerHand.contains card then
        (s, [Event.errorEv "Can\x27t ask for a card you have"])
      else
        match s.hands target with
        | none => (s, [Event.errorEv "Failed to process request"])
        | some targetHand =>
          if targetHand.contains card then
            let hs1 := upd s.hands target (targetHand.filter (fun c => !(c == card)))
            match hs1 asker with
            | some a2 =>
                ({ s with hands := upd hs1 asker (a2 ++ [card]) },
                 [Event.turnUpdate (asker ++ " asked " ++ target ++ " for " ++ card ++ " - YES!")])
            | none =>
                ({ s with hands := hs1 },
                 [Event.errorEv "Failed to process request"])
          else
            ({ s with currentTurn := s.players.indexOf target },
             [Event.turnUpdate (asker ++ " asked " ++ target ++ " for " ++ card ++ " - NO")])

/-- `askForCard` including the silent return for an absent session. -/
def askForCard : Option GameState → String → String → Option GameState × List Event
  | none, _, _ => (none, [])
  | some s, target, card => ((askSession s target card).1, (askSession s target card).2)

/-- `Object.values(assignments).flat()`; an assignments object is modelled
as its entry list in insertion order. -/
def assignedCardsOf (a : List (String × List String)) : List String :=
  (a.map Prod.snd).flatten

/-- `gameState.hands[player]?.includes(card)` coerced to a boolean. -/
def handHas (hs : Hands) (p c : String) : Bool :=
  match hs p with
  | some h => h.contains c
  | none => false

/-- The `allCorrect` loop: every assigned card is in that player's hand. -/
def allCorrectCheck (hs : Hands) (a : List (String × List String)) : Bool :=
  a.all (fun pc => pc.2.all (fun c => handHas hs pc.1 c))

/-- The `allSameTeam` check: every named player is on the team of the first
named player. -/
def sameTeamCheck (t1 t2 : List String) (a : List (String × List String)) : Bool :=
  let ft1 := match a.head? with
             | some pc => t1.contains pc.1
             | none => false
  a.all (fun pc => (t1.contains pc.1 && ft1) || (t2.contains pc.1 && !ft1))

/-- The card-removal loop of a successful claim.  Output: new hands, the
removed-cards ghost, and whether the loop completed.  A missing hand throws
`TypeError` in the source (`hands[player].filter`), keeping the mutations
already performed; `false` marks that abort. -/
def removeLoop : List (String × List String) → Hands → List String →
    Hands × List String × Bool
  | [], hs, rem => (hs, rem, true)
  | (p, cards) :: rest, hs, rem =>
    match hs p with
    | some h =>
        removeLoop rest (upd hs p (h.filter (fun c => !cards.contains c)))
          (rem ++ h.filter (fun c => cards.contains c))
    | none => (hs, rem, false)

/-- `winner` of `endGame`. -/
def winnerOf (t1Score t2Score : Nat) : String :=
  if t2Score < t1Score then "Team 1"
  else if t1Score < t2Score then "Team 2"
  else "Tie"

/-- The tail of `makeClaim` after claim resolution: when eight or more
half-suits are claimed in total the game ends (no turn advance), otherwise
the turn advances to the next player. -/
def finishClaim (s : GameState) (log : String) : GameState × List Event :=
  if 8 ≤ s.claimed1.length + s.claimed2.length then
    (s, [Event.gameEnded (winnerOf s.claimed1.length s.claimed2.length)
          s.claimed1.length s.claimed2.length])
  else
    ({ s with currentTurn := (s.currentTurn + 1) % s.players.length },
     [Event.turnUpdate log])

/-- The card-removal phase of a successful claim followed by the
end-of-claim bookkeeping: when the removal loop completes the log is
broadcast through `finishClaim`; when it aborts (a `TypeError` in the
source) the mutations made so far are kept, the catch-all error is the
only reply, and neither the end check nor the turn advance runs. -/
def claimRemoval (s1 : GameState) (a : List (String × List String))
    (log : String) : GameState × List Event :=
  match removeLoop a s1.hands s1.removed with
  | (hs, rem, true) => finishClaim { s1 with hands := hs, removed := rem } log
  | (hs, rem, false) =>
      ({ s1 with hands := hs, removed := rem },
       [Event.errorEv "Failed to process request"])

/-- `makeClaim` on an existing session.  An unknown suit name makes
`suitCards.length` throw in the source; on the success path the suit is
pushed onto the claimer team's list before the removal loop runs, so an
abort of that loop keeps the push and the partial removals. -/
def claimSession (s : GameState) (suit : String)
    (a : List (String × List String)) : GameState × List Event :=
  let claimerOpt := s.players[s.currentTurn]?
  let claimerName := claimerOpt.getD "undefined"
  let claimerIsT1 := match claimerOpt with
                     | some c => s.team1.contains c
                     | none => false
  match getHalfSuits suit with
  | none => (s, [Event.errorEv "Failed to process request"])
  | some suitCards =>
    if (assignedCardsOf a).length = suitCards.length then
      if allCorrectCheck s.hands a then
        if sameTeamCheck s.team1 s.team2 a then
          let s1 := if claimerIsT1 then { s with claimed1 := s.claimed1 ++ [suit] }
                    else { s with claimed2 := s.claimed2 ++ [suit] }
          claimRemoval s1 a (claimerName ++ " successfully claimed " ++ suit)
        else
          let s1 := if claimerIsT1 then { s with claimed2 := s.claimed2 ++ [suit] }
                    else { s with claimed1 := s.claimed1 ++ [suit] }
          finishClaim s1 (claimerName ++ " failed claim on " ++ suit)
      else
        finishClaim s (claimerName ++ " incorrectly claimed " ++ suit)
    else
      finishClaim s (claimerName ++ " failed to claim " ++ suit ++ " - not all cards assigned")

/-- `makeClaim` including the silent return for an absent session. -/
def makeClaim : Option GameState → String → List (String × List String) →
    Option GameState × List Event
  | none, _, _ => (none, [])
  | some s, suit, a => ((claimSession s suit a).1, (claimSession s suit a).2)

/-- One entry of a projected view: the viewer's own cards, a JavaScript
`undefined` (viewer present in `players` but absent from `hands`), or a
bare hand size (`new Array(n)`). -/
inductive HandView where
  | own (cards : List String)
  | absent
  | hidden (n : Nat)
  deriving Repr, DecidableEq

/-- The `hands` rebuild of `getPlayerView`; `none` models the `TypeError`
thrown when another player's hand is `undefined`. -/
def projectHands (hs : Hands) (viewerHand : Option (List String)) (viewer : String) :
    List String → Option (List (String × HandView))
  | [] => some []
  | p :: rest =>
    if p = viewer then
      (projectHands hs viewerHand viewer rest).map
        (fun r => (p, match viewerHand with
                      | some h => HandView.own h
                      | none => HandView.absent) :: r)
    else
      match hs p with
      | some h =>
          (projectHands hs viewerHand viewer rest).map
            (fun r => (p, HandView.hidden h.length) :: r)
      | none => none

/-- The structural copy returned by `getPlayerView` (its `hands` replaced,
every other game field copied). -/
structure PlayerView where
  players : List String
  team1 : List String
  team2 : List String
  claimed1 : List String
  claimed2 : List String
  currentTurn : Nat
  started : Bool
  host : String
  handViews : List (String × HandView)
  deriving DecidableEq

/-- `getPlayerView(gameState, playerName)`. -/
def getPlayerView (s : GameState) (viewer : String) : Option PlayerView :=
  (projectHands s.hands (s.hands viewer) viewer s.players).map
    (fun hl =>
      { players := s.players, team1 := s.team1, team2 := s.team2,
        claimed1 := s.claimed1, claimed2 := s.claimed2,
        currentTurn := s.currentTurn, started := s.started, host := s.host,
        handViews := hl })

/-- Reachability of a session state: created by `createGame` and evolved by
any sequence of actions with arbitrary message fields; the two random
shuffles range over all permutations. -/
inductive Reach : GameState → Prop where
  | create (host : String) : Reach (initState host)
  | join (s : GameState) (name : String) : Reach s → Reach (joinSession s name).1
  | assign (s : GameState) (order : List String) : Reach s →
      order.Perm s.players → Reach (assignSession s order).1
  | start (s : GameState) (deck : List String) : Reach s →
      deck.Perm createDeck → Reach (startSession s deck).1
  | ask (s : GameState) (target card : String) : Reach s →
      Reach (askSession s target card).1
  | claimStep (s : GameState) (suit : String) (a : List (String × List String)) :
      Reach s → Reach (claimSession s suit a).1

/-- Concatenation of the hands of the listed players; a missing hand
contributes nothing. -/
def handsCat (hs : Hands) : List String → List String
  | [] => []
  | p :: rest => (hs p).getD [] ++ handsCat hs rest

/-- The multiset union of all players' hands of a state. -/
def unionHands (s : GameState) : List String :=
  handsCat s.hands s.players

/-- Concrete trace, step 0: Alice creates a session. -/
def trA0 : GameState := initState "Alice"
/-- Concrete trace, step 1: Bob joins. -/
def trA1 : GameState := (joinSession trA0 "Bob").1
/-- Concrete trace, step 2: Carol joins. -/
def trA2 : GameState := (joinSession trA1 "Carol").1
/-- Concrete trace, step 3: Dave joins. -/
def trA3 : GameState := (joinSession trA2 "Dave").1
/-- Concrete trace, step 4: teams assigned in join order
(team1 = Alice, Carol; team2 = Bob, Dave). -/
def trA4 : GameState := (assignSession trA3 trA3.players).1
/-- Concrete trace, step 5: the game starts with an unshuffled deck; each
player receives 12 cards (Alice the hearts, Bob the diamonds, Carol the
clubs, Dave the spades). -/
def trA5 : GameState := (startSession trA4 createDeck).1
/-- Concrete trace, step 6: Alice (team1) claims low-diamonds naming Bob
(team2, holder of the cards) and herself; the named players span both
teams, so team2 is awarded the suit and no hand changes. -/
def trA6 : GameState :=
  (claimSession trA5 "low-diamonds" [("Bob", lowDiamonds), ("Alice", [])]).1
/-- Concrete trace, step 7: Bob (team2) repeats the same spanning claim on
low-diamonds (the cards were never removed), so team1 is awarded the same
suit a second time. -/
def trA7 : GameState :=
  (claimSession trA6 "low-diamonds" [("Bob", lowDiamonds), ("Alice", [])]).1

/-- Concrete five-player trace: after Dave, Eve also joins and the game
starts with an unshuffled deck; `floor(48 / 5) = 9` cards are dealt to
each player and three cards are never dealt. -/
def trB4 : GameState := (joinSession trA3 "Eve").1
/-- The started five-player state of the five-player trace. -/
def trB5 : GameState := (startSession trB4 createDeck).1

/-- A full lobby of twelve players, used to exercise the capacity check. -/
def trFull : GameState :=
  { players := ["P01", "P02", "P03", "P04", "P05", "P06",
                "P07", "P08", "P09", "P10", "P11", "P12"],
    team1 := [], team2 := [], hands := fun _ => none, currentTurn := 0,
    claimed1 := [], claimed2 := [], started := false, host := "P01",
    removed := [], undealt := createDeck }

/-- The four-player started state is reachable. -/
theorem reach_trA5 : Reach trA5 :=
  Reach.start trA4 createDeck
    (Reach.assign trA3 trA3.players
      (Reach.join trA2 "Dave"
        (Reach.join trA1 "Carol"
          (Reach.join trA0 "Bob" (Reach.create "Alice"))))
      (List.Perm.refl _))
    (List.Perm.refl _)

/-- The five-player started state is reachable. -/
theorem reach_trB5 : Reach trB5 :=
  Reach.start trB4 createDeck
    (Reach.join trA3 "Eve"
      (Reach.join trA2 "Dave"
        (Reach.join trA1 "Carol"
          (Reach.join trA0 "Bob" (Reach.create "Alice")))))
    (List.Perm.refl _)

/-- C7: `startGame` is idempotent — on a session that has already started
it is a silent no-op producing no broadcast and changing nothing, and the
same holds for an absent session. -/
theorem startGame_idempotent :
    (∀ (s : GameState) (deck : List String), s.started = true →
      startGame (some s) deck = (some s, [])) ∧
    (∀ deck : List String, startGame none deck = (none, [])) := by
  constructor
  · intro s deck hs
    simp [startGame, startSession, hs]
  · intro _
    rfl

/-- Witness for C7 at a concrete started session and a concrete deck. -/
theorem startGame_idempotent_witness :
    startGame (some trA5) createDeck = (some trA5, []) ∧
    startGame none createDeck = (none, []) :=
  ⟨startGame_idempotent.1 trA5 createDeck rfl, startGame_idempotent.2 createDeck⟩

/-- C9 counterexample: `createGame` with an empty `hostName` does not fail
with any error — it stores a session whose `players` is `[""]`. -/
theorem createGame_empty_host_counterexample :
    createGameStore "" = (some (initState ""), [Event.gameCreated ""]) ∧
    (initState "").players = [""] ∧
    ∀ msg, Event.errorEv msg ∉ (createGameStore "").2 := by
  refine ⟨rfl, rfl, fun msg h => ?_⟩
  simp [createGameStore] at h

/-- C9 (amended): `createGame` performs no `hostName` validation — every
request, the empty host name included, creates and stores a fresh lobby
session with `players = [hostName]`. -/
theorem createGame_no_validation :
    ∀ host : String,
      createGameStore host = (some (initState host), [Event.gameCreated host]) ∧
      (initState host).players = [host] ∧ (initState host).started = false :=
  fun _ => ⟨rfl, rfl, rfl⟩

/-- C10: `assignTeams` has no lifecycle guard on `started`: any session
with at least four players (a started one included) gets its teams rebuilt
by even/odd position and a `teamsAssigned` broadcast; fewer than four
players draw an error reply; an absent session is silently ignored. -/
theorem assignTeams_no_lifecycle_guard :
    (∀ s : GameState, 4 ≤ s.players.length →
      assignTeams (some s) s.players =
        (some { s with team1 := evenPositions s.players,
                       team2 := oddPositions s.players },
         [Event.teamsAssigned (evenPositions s.players) (oddPositions s.players)])) ∧
    (∀ (s : GameState) (order : List String), s.players.length < 4 →
      assignTeams (some s) order = (some s, [Event.errorEv "Need at least 4 players"])) ∧
    (∀ order : List String, assignTeams none order = (none, [])) := by
  refine ⟨?_, ?_, fun _ => rfl⟩
  · intro s h
    simp [assignTeams, assignSession, Nat.not_lt.mpr h]
  · intro s order h
    simp [assignTeams, assignSession, h]

/-- Witness for C10: team reassignment succeeds on the concrete started
four-player session, and an absent session draws no reply. -/
theorem assignTeams_no_lifecycle_guard_witness :
    (assignTeams (some trA5) trA5.players =
      (some { trA5 with team1 := evenPositions trA5.players,
                        team2 := oddPositions trA5.players },
       [Event.teamsAssigned (evenPositions trA5.players) (oddPositions trA5.players)])) ∧
    trA5.started = true ∧
    assignTeams none ["Zoe"] = (none, []) :=
  ⟨assignTeams_no_lifecycle_guard.1 trA5 (by decide), rfl,
   assignTeams_no_lifecycle_guard.2.2 ["Zoe"]⟩

/-- C2 (code bug): the same half-suit name can reachably end up in both
teams' claimed lists — two successive cross-team claims of low-diamonds
leave the suit claimed by team2 and team1 simultaneously, violating the
disjointness that the game-end scoring relies on. -/
theorem claimedSuits_overlap_bug :
    Reach trA7 ∧ trA7.claimed1 = ["low-diamonds"] ∧ trA7.claimed2 = ["low-diamonds"] :=
  ⟨Reach.claimStep trA6 "low-diamonds" [("Bob", lowDiamonds), ("Alice", [])]
     (Reach.claimStep trA5 "low-diamonds" [("Bob", lowDiamonds), ("Alice", [])] reach_trA5),
   rfl, rfl⟩

/-- C4 counterexample: joining a started game does not fail with any error
— the new name is appended to `players` of the started session. -/
theorem join_started_counterexample :
    Reach trA5 ∧ trA5.started = true ∧ ("Eve" ∈ trA5.players → False) ∧
    joinGame (some trA5) "Eve" =
      (some { trA5 with players := trA5.players ++ ["Eve"] },
       [Event.playerJoined "Eve" (trA5.players ++ ["Eve"])]) :=
  ⟨reach_trA5, rfl, by decide, rfl⟩

/-- C4 (amended): `joinGame` fails on an absent session, a duplicate name
and a full lobby, each failure leaving `players` unchanged; but there is no
`started` guard — a fresh name joining a non-full session is appended even
after the game has started. -/
theorem joinGame_error_cases :
    (∀ name : String, joinGame none name = (none, [Event.errorEv "Game not found"])) ∧
    (∀ (s : GameState) (name : String), name ∈ s.players →
      joinGame (some s) name = (some s, [Event.errorEv "Name already taken"])) ∧
    (∀ (s : GameState) (name : String), name ∉ s.players → 12 ≤ s.players.length →
      joinGame (some s) name = (some s, [Event.errorEv "Game is full"])) ∧
    (∀ (s : GameState) (name : String), name ∉ s.players → s.players.length < 12 →
      joinGame (some s) name =
        (some { s with players := s.players ++ [name] },
         [Event.playerJoined name (s.players ++ [name])])) := by
  refine ⟨fun _ => rfl, ?_, ?_, ?_⟩
  · intro s name h
    simp [joinGame, joinSession, h]
  · intro s name h hc
    simp [joinGame, joinSession, h, hc]
  · intro s name h hc
    simp [joinGame, joinSession, h, Nat.not_le.mpr hc]

/-- Witness for C4 (amended) exercising all four branches concretely: an
absent session, a duplicate name, a full lobby, and a successful append to
a started session. -/
theorem joinGame_error_cases_witness :
    joinGame none "Zoe" = (none, [Event.errorEv "Game not found"]) ∧
    joinGame (some trA3) "Bob" = (some trA3, [Event.errorEv "Name already taken"]) ∧
    joinGame (some trFull) "Zoe" = (some trFull, [Event.errorEv "Game is full"]) ∧
    joinGame (some trA5) "Eve" =
      (some { trA5 with players := trA5.players ++ ["Eve"] },
       [Event.playerJoined "Eve" (trA5.players ++ ["Eve"])]) :=
  ⟨joinGame_error_cases.1 "Zoe",
   joinGame_error_cases.2.1 trA3 "Bob" (by decide),
   joinGame_error_cases.2.2.1 trFull "Zoe" (by decide) (by decide),
   joinGame_error_cases.2.2.2 trA5 "Eve" (by decide) (by decide)⟩

/-- C1 counterexample: `makeClaim` checks only the number of assigned
cards, never set equality with the named half-suit — here low-diamonds is
claimed with Alice's six high hearts (a six-card set disjoint from the
suit), and instead of failing as incomplete the claim succeeds: the suit
is awarded to team1 and the six cards are removed from Alice's hand. -/
theorem claim_size_only_counterexample :
    Reach trA5 ∧
    (assignedCardsOf [("Alice", highHearts)]).length = 6 ∧
    ¬ (assignedCardsOf [("Alice", highHearts)]).Perm lowDiamonds ∧
    getHalfSuits "low-diamonds" = some lowDiamonds ∧
    trA5.claimed1 = [] ∧
    (claimSession trA5 "low-diamonds" [("Alice", highHearts)]).1.claimed1 = ["low-diamonds"] ∧
    trA5.hands "Alice" = some (lowHearts ++ highHearts) ∧
    (claimSession trA5 "low-diamonds" [("Alice", highHearts)]).1.hands "Alice" = some lowHearts :=
  ⟨reach_trA5, by decide, by decide, rfl, rfl, by decide, by decide, by decide⟩

/-- C3 counterexample: with five players the deal hands out only
`floor(48 / 5) * 5 = 45` cards, so in the reachable started five-player
state (no claims yet) the union of all hands plus the cards removed by
successful claims is not the 48-card deck — the ace of spades, for one,
was never dealt. -/
theorem conservation_five_players_counterexample :
    Reach trB5 ∧ trB5.started = true ∧ trB5.removed = [] ∧
    "A♠" ∈ createDeck ∧ "A♠" ∉ unionHands trB5 ++ trB5.removed ∧
    ¬ (unionHands trB5 ++ trB5.removed).Perm createDeck := by
  refine ⟨reach_trB5, rfl, rfl, by decide, by decide, fun hp => ?_⟩
  have h1 : "A♠" ∈ createDeck := by decide
  have h2 : "A♠" ∉ unionHands trB5 ++ trB5.removed := by decide
  exact h2 (hp.symm.subset h1)

/-- C1 (amended): `makeClaim` rejects as incomplete exactly the claims
whose assigned-card count differs from the six cards of a valid half-suit
(the source compares only lengths, never the sets): no half-suit is
awarded, no hand or removed card changes, and — as long as fewer than
eight half-suits are claimed — `currentTurn` advances to the next
player. -/
theorem claim_incomplete_advances (s : GameState) (suit : String)
    (suitCards : List String) (a : List (String × List String))
    (hsuit : getHalfSuits suit = some suitCards)
    (hlen : (assignedCardsOf a).length ≠ suitCards.length)
    (hne : s.players ≠ [])
    (hlt : s.claimed1.length + s.claimed2.length < 8) :
    (claimSession s suit a).1.hands = s.hands ∧
    (claimSession s suit a).1.claimed1 = s.claimed1 ∧
    (claimSession s suit a).1.claimed2 = s.claimed2 ∧
    (claimSession s suit a).1.removed = s.removed ∧
    (claimSession s suit a).1.currentTurn = (s.currentTurn + 1) % s.players.length := by
  have hpos : 0 < s.players.length := List.length_pos.mpr hne
  simp [claimSession, hsuit, hlen, finishClaim, Nat.not_le.mpr hlt]

/-- Witness for C1 (amended): a one-card claim of low-diamonds in the
concrete started game fails as incomplete and passes the turn on. -/
theorem claim_incomplete_advances_witness :
    (claimSession trA5 "low-diamonds" [("Bob", ["2♦"])]).1.hands = trA5.hands ∧
    (claimSession trA5 "low-diamonds" [("Bob", ["2♦"])]).1.claimed1 = trA5.claimed1 ∧
    (claimSession trA5 "low-diamonds" [("Bob", ["2♦"])]).1.claimed2 = trA5.claimed2 ∧
    (claimSession trA5 "low-diamonds" [("Bob", ["2♦"])]).1.removed = trA5.removed ∧
    (claimSession trA5 "low-diamonds" [("Bob", ["2♦"])]).1.currentTurn =
      (trA5.currentTurn + 1) % trA5.players.length :=
  claim_incomplete_advances trA5 "low-diamonds" lowDiamonds [("Bob", ["2♦"])]
    rfl (by decide) (by decide) (by decide)

/-- C5: in a dealt game, an `askForCard` by the player on turn for a card
they do not hold transfers the card from the target's hand to the asker's
and leaves the turn with the asker when the target holds it, and changes
no hand while passing the turn to the target's index when the target does
not. -/
theorem askForCard_turn_transfer (s : GameState) (target card asker : String)
    (askerHand targetHand : List String)
    (hask : s.players[s.currentTurn]? = some asker)
    (hA : s.hands asker = some askerHand)
    (hnc : card ∉ askerHand)
    (hT : s.hands target = some targetHand) :
    (card ∈ targetHand →
      (askSession s target card).1.hands target =
        some (targetHand.filter (fun c => !(c == card))) ∧
      (askSession s target card).1.hands asker = some (askerHand ++ [card]) ∧
      (∀ p, p ≠ target → p ≠ asker →
        (askSession s target card).1.hands p = s.hands p) ∧
      (askSession s target card).1.currentTurn = s.currentTurn) ∧
    (card ∉ targetHand →
      (askSession s target card).1.hands = s.hands ∧
      (askSession s target card).1.currentTurn = s.players.indexOf target) := by
  constructor
  · intro hmem
    have hne : asker ≠ target := by
      rintro rfl
      rw [hA] at hT
      exact hnc (Option.some_injective _ hT ▸ hmem)
    have hs1asker : upd s.hands target (targetHand.filter (fun c => !(c == card))) asker
        = some askerHand := by
      simp [upd, hne, hA]
    refine ⟨?_, ?_, fun p hpt hpa => ?_, ?_⟩
    · simp [askSession, hask, hA, hT, hnc, hmem, upd, hne, Ne.symm hne]
    · simp [askSession, hask, hA, hT, hnc, hmem, upd, hne]
    · simp [askSession, hask, hA, hT, hnc, hmem, upd, hne, hpt, hpa]
    · simp [askSession, hask, hA, hT, hnc, hmem, upd, hne]
  · intro hmem
    constructor <;> simp [askSession, hask, hA, hT, hnc, hmem]

/-- Witness for C5 in the concrete started game: Alice asks Bob for the
two of diamonds (a hit: the card moves, the turn stays) and for the two of
spades (a miss: hands unchanged, the turn passes to Bob's index). -/
theorem askForCard_turn_transfer_witness :
    (askSession trA5 "Bob" "2♦").1.hands "Bob" =
      some ((lowDiamonds ++ highDiamonds).filter (fun c => !(c == "2♦"))) ∧
    (askSession trA5 "Bob" "2♦").1.hands "Alice" = some (lowHearts ++ highHearts ++ ["2♦"]) ∧
    (askSession trA5 "Bob" "2♦").1.currentTurn = trA5.currentTurn ∧
    (askSession trA5 "Bob" "2♠").1.hands = trA5.hands ∧
    (askSession trA5 "Bob" "2♠").1.currentTurn = trA5.players.indexOf "Bob" := by
  have hyes := (askForCard_turn_transfer trA5 "Bob" "2♦" "Alice"
    (lowHearts ++ highHearts) (lowDiamonds ++ highDiamonds)
    rfl (by decide) (by decide) (by decide)).1 (by decide)
  have hno := (askForCard_turn_transfer trA5 "Bob" "2♠" "Alice"
    (lowHearts ++ highHearts) (lowDiamonds ++ highDiamonds)
    rfl (by decide) (by decide) (by decide)).2 (by decide)
  exact ⟨hyes.1, by simpa using hyes.2.1, hyes.2.2.2, hno.1, hno.2⟩

/-- Fields of a state untouched by the end-of-claim bookkeeping. -/
theorem finishClaim_fields (s : GameState) (log : String) :
    (finishClaim s log).1.hands = s.hands ∧
    (finishClaim s log).1.removed = s.removed ∧
    (finishClaim s log).1.claimed1 = s.claimed1 ∧
    (finishClaim s log).1.claimed2 = s.claimed2 ∧
    (finishClaim s log).1.players = s.players ∧
    (finishClaim s log).1.started = s.started ∧
    (finishClaim s log).1.undealt = s.undealt := by
  rw [finishClaim]
  split <;> exact ⟨rfl, rfl, rfl, rfl, rfl, rfl, rfl⟩

/-- When the named players of a claim span both teams and the teams are
disjoint, the `allSameTeam` check of `makeClaim` is false. -/
theorem sameTeamCheck_false (t1 t2 : List String) (a : List (String × List String))
    (hspan1 : ∃ pc ∈ a, pc.1 ∈ t1) (hspan2 : ∃ pc ∈ a, pc.1 ∈ t2)
    (hdisj : ∀ p ∈ t1, p ∉ t2) :
    sameTeamCheck t1 t2 a = false := by
  obtain ⟨pc1, hpc1, hp1⟩ := hspan1
  obtain ⟨pc2, hpc2, hp2⟩ := hspan2
  rw [sameTeamCheck]
  by_cases hft : (match a.head? with
                  | some pc => t1.contains pc.1
                  | none => false) = true
  · simp only [hft]
    refine List.all_eq_false.mpr ⟨pc2, hpc2, ?_⟩
    have h2not1 : pc2.1 ∉ t1 := fun hin => hdisj pc2.1 hin hp2
    simp [h2not1]
  · simp only [Bool.not_eq_true] at hft
    simp only [hft]
    refine List.all_eq_false.mpr ⟨pc1, hpc1, ?_⟩
    have h1not2 : pc1.1 ∉ t2 := hdisj pc1.1 hp1
    simp [hp1, h1not2]

/-- C6: a claim that is complete (the assigned cards are exactly the six
cards of the half-suit) and correct (every named player holds the cards
assigned to them) but whose named players span both teams awards the
half-suit to the team not containing the claimer, and leaves every hand
(and the removed-cards ghost) unchanged. -/
theorem claim_cross_team_steal (s : GameState) (suit claimer : String)
    (suitCards : List String) (a : List (String × List String))
    (hsuit : getHalfSuits suit = some suitCards)
    (hperm : (assignedCardsOf a).Perm suitCards)
    (hcorrect : allCorrectCheck s.hands a = true)
    (hspan1 : ∃ pc ∈ a, pc.1 ∈ s.team1)
    (hspan2 : ∃ pc ∈ a, pc.1 ∈ s.team2)
    (hdisj : ∀ p ∈ s.team1, p ∉ s.team2)
    (hcl : s.players[s.currentTurn]? = some claimer) :
    (claimSession s suit a).1.hands = s.hands ∧
    (claimSession s suit a).1.removed = s.removed ∧
    (claimer ∈ s.team1 →
      (claimSession s suit a).1.claimed2 = s.claimed2 ++ [suit] ∧
      (claimSession s suit a).1.claimed1 = s.claimed1) ∧
    (claimer ∈ s.team2 →
      (claimSession s suit a).1.claimed1 = s.claimed1 ++ [suit] ∧
      (claimSession s suit a).1.claimed2 = s.claimed2) := by
  have hlen : (assignedCardsOf a).length = suitCards.length := hperm.length_eq
  have hteam := sameTeamCheck_false s.team1 s.team2 a hspan1 hspan2 hdisj
  have hred : claimSession s suit a =
      finishClaim
        (if s.team1.contains claimer then { s with claimed2 := s.claimed2 ++ [suit] }
         else { s with claimed1 := s.claimed1 ++ [suit] })
        (claimer ++ " failed claim on " ++ suit) := by
    simp only [claimSession, hcl, Option.getD_some, hsuit, hlen, if_true, hcorrect, hteam,
      Bool.false_eq_true, if_false, ite_true, ite_false]
  refine ⟨?_, ?_, fun h1 => ?_, fun h2 => ?_⟩
  · rw [hred]
    cases hct : s.team1.contains claimer <;> simp only [hct, if_true, if_false, ite_true,
      ite_false, Bool.false_eq_true] <;> exact (finishClaim_fields _ _).1
  · rw [hred]
    cases hct : s.team1.contains claimer <;> simp only [hct, if_true, if_false, ite_true,
      ite_false, Bool.false_eq_true] <;> exact (finishClaim_fields _ _).2.1
  · have hct : s.team1.contains claimer = true := List.elem_eq_true_of_mem h1
    rw [hred]
    simp only [hct, ite_true]
    exact ⟨(finishClaim_fields _ _).2.2.2.1, (finishClaim_fields _ _).2.2.1⟩
  · have hct : s.team1.contains claimer = false := by
      have hn : claimer ∉ s.team1 := fun hin => hdisj claimer hin h2
      simp [hn]
    rw [hred]
    simp only [hct, Bool.false_eq_true, ite_false]
    exact ⟨(finishClaim_fields _ _).2.2.1, (finishClaim_fields _ _).2.2.2.1⟩

/-- Witness for C6: in the concrete started game Alice (team1) claims
low-diamonds naming Bob (team2, who holds all six cards) and herself; the
suit is awarded to team2 and no hand changes. -/
theorem claim_cross_team_steal_witness :
    (claimSession trA5 "low-diamonds" [("Bob", lowDiamonds), ("Alice", [])]).1.hands = trA5.hands ∧
    (claimSession trA5 "low-diamonds" [("Bob", lowDiamonds), ("Alice", [])]).1.claimed2 =
      trA5.claimed2 ++ ["low-diamonds"] ∧
    (claimSession trA5 "low-diamonds" [("Bob", lowDiamonds), ("Alice", [])]).1.claimed1 =
      trA5.claimed1 := by
  have h := claim_cross_team_steal trA5 "low-diamonds" "Alice" lowDiamonds
    [("Bob", lowDiamonds), ("Alice", [])]
    rfl (by decide) (by decide)
    ⟨("Alice", []), by decide, by decide⟩
    ⟨("Bob", lowDiamonds), by decide, by decide⟩
    (by decide) rfl
  exact ⟨h.1, (h.2.2.1 (by decide)).1, (h.2.2.1 (by decide)).2⟩

/-- Closed form of the `hands` rebuild of `getPlayerView` when every other
listed player has a defined hand: the viewer keeps their cards, everyone
else is reduced to a bare hand size. -/
theorem projectHands_eq (hs : Hands) (viewerHand : Option (List String)) (viewer : String)
    (l : List String) (hdef : ∀ p ∈ l, p ≠ viewer → hs p ≠ none) :
    projectHands hs viewerHand viewer l =
      some (l.map (fun p =>
        (p, if p = viewer then
              match viewerHand with
              | some h => HandView.own h
              | none => HandView.absent
            else HandView.hidden ((hs p).getD []).length))) := by
  induction l with
  | nil => rfl
  | cons p rest ih =>
    have hrest : ∀ q ∈ rest, q ≠ viewer → hs q ≠ none :=
      fun q hq => hdef q (List.mem_cons_of_mem _ hq)
    by_cases hpv : p = viewer
    · simp [projectHands, hpv, ih hrest]
    · have hp : hs p ≠ none := hdef p (List.mem_cons_self _ _) hpv
      obtain ⟨h, hh⟩ := Option.ne_none_iff_exists'.mp hp
      simp [projectHands, hpv, hh, ih hrest]

/-- C8: `getPlayerView` gives the viewer their true hand and reduces every
other player's entry to a bare hand size carrying no card identity; hence
the view is unchanged when other players' cards are permuted or replaced
as long as their hand sizes (and the viewer's own hand) are preserved. -/
theorem getPlayerView_redaction (s1 s2 : GameState) (viewer : String)
    (hdef1 : ∀ p ∈ s1.players, p ≠ viewer → s1.hands p ≠ none)
    (hp : s2.players = s1.players) (ht1 : s2.team1 = s1.team1) (ht2 : s2.team2 = s1.team2)
    (hc1 : s2.claimed1 = s1.claimed1) (hc2 : s2.claimed2 = s1.claimed2)
    (hct : s2.currentTurn = s1.currentTurn) (hst : s2.started = s1.started)
    (hh : s2.host = s1.host)
    (hv : s2.hands viewer = s1.hands viewer)
    (hsz : ∀ p ∈ s1.players, p ≠ viewer →
      s2.hands p ≠ none ∧ ((s2.hands p).getD []).length = ((s1.hands p).getD []).length) :
    getPlayerView s1 viewer =
      some { players := s1.players, team1 := s1.team1, team2 := s1.team2,
             claimed1 := s1.claimed1, claimed2 := s1.claimed2,
             currentTurn := s1.currentTurn, started := s1.started, host := s1.host,
             handViews := s1.players.map (fun p =>
               (p, if p = viewer then
                     match s1.hands viewer with
                     | some h => HandView.own h
                     | none => HandView.absent
                   else HandView.hidden ((s1.hands p).getD []).length)) } ∧
    getPlayerView s2 viewer = getPlayerView s1 viewer := by
  have he1 := projectHands_eq s1.hands (s1.hands viewer) viewer s1.players hdef1
  have hdef2 : ∀ p ∈ s2.players, p ≠ viewer → s2.hands p ≠ none := by
    rw [hp]
    exact fun p hmem hne => (hsz p hmem hne).1
  have he2 := projectHands_eq s2.hands (s2.hands viewer) viewer s2.players hdef2
  have hmaps : s1.players.map (fun p =>
        (p, if p = viewer then
              match s2.hands viewer with
              | some h => HandView.own h
              | none => HandView.absent
            else HandView.hidden ((s2.hands p).getD []).length)) =
      s1.players.map (fun p =>
        (p, if p = viewer then
              match s1.hands viewer with
              | some h => HandView.own h
              | none => HandView.absent
            else HandView.hidden ((s1.hands p).getD []).length)) := by
    refine List.map_congr_left (fun p hmem => ?_)
    by_cases hpv : p = viewer
    · simp [hpv, hv]
    · simp [hpv, (hsz p hmem hpv).2]
  constructor
  · simp [getPlayerView, he1]
  · rw [hp] at he2
    simp [getPlayerView, he1, he2, hmaps, hp, ht1, ht2, hc1, hc2, hct, hst, hh]

/-- A variant of the concrete started game in which Bob's twelve cards are
replaced by a different ordering; only his hand differs from `trA5`. -/
def trA5bob : GameState :=
  { trA5 with hands := upd trA5.hands "Bob" (highDiamonds ++ lowDiamonds) }

/-- Witness for C8: Alice's view of the concrete started game shows her
own hearts and only counts for the others, and it is identical to her view
of the variant game in which Bob's cards were reordered. -/
theorem getPlayerView_redaction_witness :
    getPlayerView trA5 "Alice" =
      some { players := trA5.players, team1 := trA5.team1, team2 := trA5.team2,
             claimed1 := trA5.claimed1, claimed2 := trA5.claimed2,
             currentTurn := trA5.currentTurn, started := trA5.started, host := trA5.host,
             handViews := trA5.players.map (fun p =>
               (p, if p = "Alice" then
                     match trA5.hands "Alice" with
                     | some h => HandView.own h
                     | none => HandView.absent
                   else HandView.hidden ((trA5.hands p).getD []).length)) } ∧
    getPlayerView trA5bob "Alice" = getPlayerView trA5 "Alice" := by
  have h := getPlayerView_redaction trA5 trA5bob "Alice"
    (by decide) rfl rfl rfl rfl rfl rfl rfl rfl (by decide)
    (by decide)
  exact ⟨h.1, h.2⟩

/-- `upd` hits the updated key. -/
theorem upd_self (hs : Hands) (k : String) (v : List String) : upd hs k v k = some v := by
  simp [upd]

/-- `upd` misses every other key. -/
theorem upd_other (hs : Hands) (k : String) (v : List String) (x : String) (h : x ≠ k) :
    upd hs k v x = hs x := by
  simp [upd, h]

/-- `handsCat` only looks at the listed players. -/
theorem handsCat_congr (hs1 hs2 : Hands) (l : List String)
    (h : ∀ p ∈ l, hs1 p = hs2 p) : handsCat hs1 l = handsCat hs2 l := by
  induction l with
  | nil => rfl
  | cons p rest ih =>
    rw [handsCat, handsCat, h p (List.mem_cons_self _ _),
      ih (fun q hq => h q (List.mem_cons_of_mem _ hq))]

/-- Updating a player outside the list leaves `handsCat` unchanged. -/
theorem handsCat_upd_not_mem (hs : Hands) (l : List String) (p : String)
    (v : List String) (h : p ∉ l) : handsCat (upd hs p v) l = handsCat hs l :=
  handsCat_congr _ _ _ (fun q hq => upd_other hs p v q (fun he => h (he ▸ hq)))

/-- `handsCat` distributes over list append. -/
theorem handsCat_append (hs : Hands) (l1 l2 : List String) :
    handsCat hs (l1 ++ l2) = handsCat hs l1 ++ handsCat hs l2 := by
  induction l1 with
  | nil => rfl
  | cons p rest ih => rw [List.cons_append, handsCat, handsCat, ih, List.append_assoc]

/-- `handsCat` of an all-undefined map is empty. -/
theorem handsCat_none (hs : Hands) (l : List String) (h : ∀ p ∈ l, hs p = none) :
    handsCat hs l = [] := by
  induction l with
  | nil => rfl
  | cons p rest ih =>
    rw [handsCat, h p (List.mem_cons_self _ _),
      ih (fun q hq => h q (List.mem_cons_of_mem _ hq))]
    rfl

/-- Updating one listed player's hand exchanges, as multisets, the old
hand for the new one in the concatenation of all hands. -/
theorem handsCat_upd_multiset (hs : Hands) (l : List String) (p : String)
    (v : List String) (hnd : l.Nodup) (hp : p ∈ l) :
    (handsCat (upd hs p v) l : Multiset String) + ↑((hs p).getD []) =
      (handsCat hs l : Multiset String) + ↑v := by
  induction l with
  | nil => cases hp
  | cons q rest ih =>
    rcases List.mem_cons.mp hp with hq | hq
    · subst hq
      have hnr : p ∉ rest := (List.nodup_cons.mp hnd).1
      rw [handsCat, handsCat, upd_self, handsCat_upd_not_mem hs rest p v hnr]
      simp only [Option.getD_some, ← Multiset.coe_add]
      abel
    · have hqp : q ≠ p := by
        rintro rfl
        exact (List.nodup_cons.mp hnd).1 hq
      have ih' := ih (List.nodup_cons.mp hnd).2 hq
      rw [handsCat, handsCat, upd_other hs p v q hqp]
      simp only [← Multiset.coe_add]
      calc (↑((hs q).getD []) + ↑(handsCat (upd hs p v) rest) : Multiset String) + ↑((hs p).getD [])
          = ↑((hs q).getD []) + (↑(handsCat (upd hs p v) rest) + ↑((hs p).getD [])) := by abel
        _ = ↑((hs q).getD []) + ((handsCat hs rest : Multiset String) + ↑v) := by rw [ih']
        _ = ↑((hs q).getD []) + ↑(handsCat hs rest) + ↑v := by abel

/-- Each listed player's hand is a sublist of the hand concatenation. -/
theorem handsCat_sublist (hs : Hands) (l : List String) (p : String) (hp : p ∈ l) :
    ((hs p).getD []).Sublist (handsCat hs l) := by
  induction l with
  | nil => cases hp
  | cons q rest ih =>
    rcases List.mem_cons.mp hp with hq | hq
    · subst hq
      rw [handsCat]
      exact List.sublist_append_left _ _
    · rw [handsCat]
      exact (ih hq).trans (List.sublist_append_right _ _)

/-- In a duplicate-free list the matches of one present element are
exactly that element. -/
theorem filter_beq_single (l : List String) (a : String) (hnd : l.Nodup) (ha : a ∈ l) :
    l.filter (fun x => x == a) = [a] := by
  induction l with
  | nil => cases ha
  | cons b rest ih =>
    by_cases hba : b = a
    · subst hba
      have hbr : b ∉ rest := (List.nodup_cons.mp hnd).1
      have hrest : rest.filter (fun x => x == b) = [] := by
        refine List.filter_eq_nil_iff.mpr (fun c hc => ?_)
        simp only [beq_iff_eq]
        rintro rfl
        exact hbr hc
      simp [List.filter_cons, hrest]
    · have har : a ∈ rest := by
        rcases List.mem_cons.mp ha with h1 | h1
        · exact absurd h1.symm hba
        · exact h1
      have := ih (List.nodup_cons.mp hnd).2 har
      simp [List.filter_cons, hba, this]

/-- The 48 cards of the deck are pairwise distinct. -/
theorem createDeck_nodup : createDeck.Nodup := by decide

/-- Dealing writes only the hands of the listed players. -/
theorem dealFrom_not_mem (deck : List String) (cpp : Nat) :
    ∀ (ps : List String) (i : Nat) (hs : Hands) (q : String), q ∉ ps →
      dealFrom deck cpp ps i hs q = hs q := by
  intro ps
  induction ps with
  | nil => intro i hs q _; rfl
  | cons p rest ih =>
    intro i hs q hq
    rw [dealFrom, ih (i + 1) _ q (fun hmem => hq (List.mem_cons_of_mem _ hmem)),
      upd_other _ _ _ _ (fun he => hq (by rw [he]; exact List.mem_cons_self _ _))]

/-- A hand defined after dealing belongs to a listed player or was already
defined. -/
theorem dealFrom_sub (deck : List String) (cpp : Nat) :
    ∀ (ps : List String) (i : Nat) (hs : Hands) (q : String),
      dealFrom deck cpp ps i hs q ≠ none → q ∈ ps ∨ hs q ≠ none := by
  intro ps
  induction ps with
  | nil => intro i hs q hq; exact Or.inr hq
  | cons p rest ih =>
    intro i hs q hq
    rw [dealFrom] at hq
    rcases ih (i + 1) _ q hq with hmem | hne
    · exact Or.inl (List.mem_cons_of_mem _ hmem)
    · by_cases hqp : q = p
      · exact Or.inl (hqp ▸ List.mem_cons_self _ _)
      · rw [upd_other _ _ _ _ hqp] at hne
        exact Or.inr hne

/-- The concatenation of the dealt hands of distinct, previously handless
players is a contiguous slice of the shuffled deck. -/
theorem handsCat_dealFrom (deck : List String) (cpp : Nat) :
    ∀ (ps : List String) (i : Nat) (hs : Hands), ps.Nodup →
      (∀ p ∈ ps, hs p = none) →
      handsCat (dealFrom deck cpp ps i hs) ps =
        (deck.drop (i * cpp)).take (ps.length * cpp) := by
  intro ps
  induction ps with
  | nil => intro i hs _ _; simp [handsCat]
  | cons p rest ih =>
    intro i hs hnd hnone
    have hpr : p ∉ rest := (List.nodup_cons.mp hnd).1
    rw [dealFrom, handsCat,
      dealFrom_not_mem deck cpp rest (i + 1) _ p hpr, upd_self,
      ih (i + 1) _ (List.nodup_cons.mp hnd).2 (fun q hq => by
        rw [upd_other _ _ _ _ (fun he => hpr (by rw [← he]; exact hq))]
        exact hnone q (List.mem_cons_of_mem _ hq))]
    have harith1 : (rest.length + 1) * cpp = cpp + rest.length * cpp := by ring
    have harith2 : i * cpp + cpp = (i + 1) * cpp := by ring
    rw [List.length_cons, harith1, List.take_add, List.drop_drop, harith2,
      Option.getD_some]

/-- The removal loop preserves, as a multiset, the concatenation of all
hands together with the removed-cards accumulator, and never defines a new
hand. -/
theorem removeLoop_conserve (players : List String) (hnd : players.Nodup) :
    ∀ (a : List (String × List String)) (hs : Hands) (rem : List String),
      (∀ p, hs p ≠ none → p ∈ players) →
      ((handsCat (removeLoop a hs rem).1 players : Multiset String) +
          ↑(removeLoop a hs rem).2.1 =
        (handsCat hs players : Multiset String) + ↑rem) ∧
      (∀ p, (removeLoop a hs rem).1 p ≠ none → p ∈ players) := by
  intro a
  induction a with
  | nil => intro hs rem hsub; exact ⟨rfl, hsub⟩
  | cons pc rest ih =>
    intro hs rem hsub
    obtain ⟨p, cards⟩ := pc
    rw [removeLoop]
    cases hhp : hs p with
    | none => exact ⟨rfl, hsub⟩
    | some hand =>
      have hpmem : p ∈ players := hsub p (by simp [hhp])
      have hsub' : ∀ q, upd hs p (hand.filter (fun c => !cards.contains c)) q ≠ none →
          q ∈ players := by
        intro q hq
        by_cases hqp : q = p
        · exact hqp ▸ hpmem
        · rw [upd_other _ _ _ _ hqp] at hq
          exact hsub q hq
      have ihh := ih (upd hs p (hand.filter (fun c => !cards.contains c)))
        (rem ++ hand.filter (fun c => cards.contains c)) hsub'
      refine ⟨?_, ihh.2⟩
      have hupd := handsCat_upd_multiset hs players p
        (hand.filter (fun c => !cards.contains c)) hnd hpmem
      rw [hhp, Option.getD_some] at hupd
      have hpart : ((hand.filter (fun c => cards.contains c) ++
          hand.filter (fun c => !cards.contains c))).Perm hand :=
        List.filter_append_perm _ hand
      have hpartm : (↑(hand.filter (fun c => cards.contains c)) :
          Multiset String) + ↑(hand.filter (fun c => !cards.contains c)) = ↑hand := by
        rw [Multiset.coe_add]
        exact Multiset.coe_eq_coe.mpr hpart
      have hstep : (handsCat (upd hs p (hand.filter (fun c => !cards.contains c)))
          players : Multiset String) + ↑(hand.filter (fun c => cards.contains c)) =
          ↑(handsCat hs players) := by
        have := hupd
        rw [← hpartm] at this
        have h2 : (handsCat (upd hs p (hand.filter (fun c => !cards.contains c)))
            players : Multiset String) + ↑(hand.filter (fun c => cards.contains c)) +
            ↑(hand.filter (fun c => !cards.contains c)) =
            ↑(handsCat hs players) + ↑(hand.filter (fun c => !cards.contains c)) := by
          calc (handsCat (upd hs p (hand.filter (fun c => !cards.contains c)))
              players : Multiset String) + ↑(hand.filter (fun c => cards.contains c)) +
              ↑(hand.filter (fun c => !cards.contains c))
              = (handsCat (upd hs p (hand.filter (fun c => !cards.contains c)))
                players : Multiset String) + (↑(hand.filter (fun c => cards.contains c)) +
                ↑(hand.filter (fun c => !cards.contains c))) := by abel
            _ = ↑(handsCat hs players) + ↑(hand.filter (fun c => !cards.contains c)) := this
        exact add_right_cancel h2
      calc (handsCat (removeLoop rest (upd hs p (hand.filter (fun c => !cards.contains c)))
            (rem ++ hand.filter (fun c => cards.contains c))).1 players : Multiset String) +
            ↑(removeLoop rest (upd hs p (hand.filter (fun c => !cards.contains c)))
              (rem ++ hand.filter (fun c => cards.contains c))).2.1
          = (handsCat (upd hs p (hand.filter (fun c => !cards.contains c))) players :
              Multiset String) + ↑(rem ++ hand.filter (fun c => cards.contains c)) := ihh.1
        _ = (handsCat (upd hs p (hand.filter (fun c => !cards.contains c))) players :
              Multiset String) + ↑(hand.filter (fun c => cards.contains c)) + ↑rem := by
              simp only [← Multiset.coe_add]
              abel
        _ = ↑(handsCat hs players) + ↑rem := by rw [hstep]

/-- On an all-undefined hands map the removal loop does nothing. -/
theorem removeLoop_unchanged (a : List (String × List String)) (hs : Hands)
    (rem : List String) (h : ∀ p, hs p = none) :
    (removeLoop a hs rem).1 = hs ∧ (removeLoop a hs rem).2.1 = rem := by
  cases a with
  | nil => exact ⟨rfl, rfl⟩
  | cons pc rest =>
    obtain ⟨p, cards⟩ := pc
    rw [removeLoop, h p]
    exact ⟨rfl, rfl⟩

/-- The inductive invariant of reachable session states: a non-empty,
duplicate-free player list, a valid turn index, hands only for listed
players, no hands or removals before the deal, and conservation — all
hands plus the removed and undealt ghosts make up exactly the deck. -/
structure Inv (s : GameState) : Prop where
  playersNe : s.players ≠ []
  playersNodup : s.players.Nodup
  turnLt : s.currentTurn < s.players.length
  handsSub : ∀ p, s.hands p ≠ none → p ∈ s.players
  preHands : s.started = false → ∀ p, s.hands p = none
  preRemoved : s.started = false → s.removed = []
  conserve : ((unionHands s ++ s.removed ++ s.undealt : List String) : Multiset String) =
    ↑createDeck

/-- A fresh session satisfies the invariant. -/
theorem inv_init (host : String) : Inv (initState host) := by
  refine ⟨by simp [initState], by simp [initState], by simp [initState],
    fun p hp => absurd rfl hp, fun _ p => rfl, fun _ => rfl, ?_⟩
  simp [initState, unionHands, handsCat]

/-- `joinGame` preserves the invariant. -/
theorem inv_join (s : GameState) (name : String) (h : Inv s) :
    Inv (joinSession s name).1 := by
  rw [joinSession]
  by_cases hdup : s.players.contains name
  · simp only [hdup, if_true]
    exact h
  · simp only [hdup, Bool.false_eq_true, if_false]
    by_cases hcap : 12 ≤ s.players.length
    · simp only [if_pos hcap]
      exact h
    · simp only [if_neg hcap]
      have hnotmem : name ∉ s.players := by
        intro hmem
        exact hdup (List.elem_eq_true_of_mem hmem)
      have hhandnone : s.hands name = none := by
        by_contra hne
        exact hnotmem (h.handsSub name hne)
      refine ⟨by simp, ?_, ?_, ?_, h.preHands, h.preRemoved, ?_⟩
      · refine List.Nodup.append h.playersNodup (List.nodup_singleton name) ?_
        intro x hx hy
        rw [List.mem_singleton] at hy
        exact hnotmem (hy ▸ hx)
      · calc s.currentTurn < s.players.length := h.turnLt
          _ ≤ (s.players ++ [name]).length := by simp
      · intro p hp
        exact List.mem_append_left _ (h.handsSub p hp)
      · have hcat : handsCat s.hands (s.players ++ [name]) = handsCat s.hands s.players := by
          rw [handsCat_append, handsCat, hhandnone, handsCat]
          simp
        show ((handsCat s.hands (s.players ++ [name]) ++ s.removed ++ s.undealt :
          List String) : Multiset String) = ↑createDeck
        rw [hcat]
        exact h.conserve

/-- `assignTeams` preserves the invariant. -/
theorem inv_assign (s : GameState) (order : List String) (h : Inv s) :
    Inv (assignSession s order).1 := by
  rw [assignSession]
  split
  · exact h
  · exact ⟨h.playersNe, h.playersNodup, h.turnLt, h.handsSub, h.preHands,
      h.preRemoved, h.conserve⟩

/-- The end-of-claim bookkeeping preserves the invariant. -/
theorem inv_finish (s : GameState) (log : String) (h : Inv s) :
    Inv (finishClaim s log).1 := by
  rw [finishClaim]
  split
  · exact h
  · exact ⟨h.playersNe, h.playersNodup,
      Nat.mod_lt _ (List.length_pos.mpr h.playersNe), h.handsSub, h.preHands,
      h.preRemoved, h.conserve⟩

/-- Updating only the claimed lists preserves the invariant. -/
theorem inv_claimed_update (s : GameState) (c1 c2 : List String) (h : Inv s) :
    Inv { s with claimed1 := c1, claimed2 := c2 } :=
  ⟨h.playersNe, h.playersNodup, h.turnLt, h.handsSub, h.preHands,
    h.preRemoved, h.conserve⟩

/-- `startGame` preserves the invariant for any shuffle of the deck. -/
theorem inv_start (s : GameState) (deck : List String) (h : Inv s)
    (hperm : deck.Perm createDeck) : Inv (startSession s deck).1 := by
  rw [startSession]
  by_cases hst : s.started
  · simp only [hst, if_true]
    exact h
  · simp only [Bool.not_eq_true] at hst
    simp only [hst, Bool.false_eq_true, if_false]
    have hall : ∀ p ∈ s.players, s.hands p = none := fun p _ => h.preHands hst p
    refine ⟨h.playersNe, h.playersNodup, List.length_pos.mpr h.playersNe, ?_, ?_, ?_, ?_⟩
    · intro p hp
      rcases dealFrom_sub deck _ s.players 0 s.hands p hp with hmem | hne
      · exact hmem
      · exact h.handsSub p hne
    · intro hfalse
      simp at hfalse
    · intro hfalse
      simp at hfalse
    · have hdeal := handsCat_dealFrom deck (deck.length / s.players.length) s.players 0
        s.hands h.playersNodup hall
      rw [Nat.zero_mul, List.drop_zero] at hdeal
      show ((handsCat (dealFrom deck (deck.length / s.players.length) s.players 0 s.hands)
          s.players ++ s.removed ++
          deck.drop (s.players.length * (deck.length / s.players.length)) :
          List String) : Multiset String) = ↑createDeck
      rw [hdeal, h.preRemoved hst, List.append_nil, List.take_append_drop]
      exact Multiset.coe_eq_coe.mpr hperm

/-- `askForCard` preserves the invariant. -/
theorem inv_ask (s : GameState) (target card : String) (h : Inv s) :
    Inv (askSession s target card).1 := by
  rw [askSession]
  split
  · exact h
  next asker hget =>
    split
    · exact h
    next askerHand hA =>
      split
      · exact h
      next hin =>
        split
        · exact h
        next targetHand hT =>
          split
          next htc =>
            have hamem : asker ∈ s.players := h.handsSub asker (by simp [hA])
            have htmem : target ∈ s.players := h.handsSub target (by simp [hT])
            have hne : asker ≠ target := by
              rintro rfl
              rw [hA] at hT
              injection hT with he
              rw [← he] at htc
              exact hin htc
            have hs1a : upd s.hands target (targetHand.filter (fun c => !(c == card)))
                asker = some askerHand := by
              rw [upd_other _ _ _ _ hne, hA]
            simp only []
            split
            next a2 ha2 =>
              rw [hs1a] at ha2
              injection ha2 with ha2e
              subst ha2e
              refine ⟨h.playersNe, h.playersNodup, h.turnLt, ?_, ?_, h.preRemoved, ?_⟩
              · intro p hp
                simp only [] at hp ⊢
                by_cases hpa : p = asker
                · exact hpa ▸ hamem
                · by_cases hpt : p = target
                  · exact hpt ▸ htmem
                  · rw [upd_other _ _ _ _ hpa, upd_other _ _ _ _ hpt] at hp
                    exact h.handsSub p hp
              · intro hstf
                exact absurd (h.preHands hstf asker) (by simp [hA])
              · have hpermAll : (unionHands s ++ s.removed ++ s.undealt).Perm createDeck :=
                  Multiset.coe_eq_coe.mp h.conserve
                have hnodupAll : (unionHands s ++ s.removed ++ s.undealt).Nodup :=
                  hpermAll.nodup_iff.mpr createDeck_nodup
                have hU : (unionHands s).Nodup :=
                  (hnodupAll.of_append_left).of_append_left
                have hTH : targetHand.Nodup := by
                  have hsubl := handsCat_sublist s.hands s.players target htmem
                  rw [hT, Option.getD_some] at hsubl
                  exact List.Nodup.sublist hsubl hU
                have hcard : card ∈ targetHand := by simpa using htc
                have hsingle : targetHand.filter (fun c => c == card) = [card] :=
                  filter_beq_single targetHand card hTH hcard
                have hpartm : (↑(targetHand.filter (fun c => c == card)) : Multiset String) +
                    ↑(targetHand.filter (fun c => !(c == card))) = ↑targetHand := by
                  rw [Multiset.coe_add]
                  exact Multiset.coe_eq_coe.mpr (List.filter_append_perm _ _)
                rw [hsingle] at hpartm
                have h1 := handsCat_upd_multiset s.hands s.players target
                  (targetHand.filter (fun c => !(c == card))) h.playersNodup htmem
                rw [hT, Option.getD_some] at h1
                have h2 := handsCat_upd_multiset
                  (upd s.hands target (targetHand.filter (fun c => !(c == card))))
                  s.players asker (askerHand ++ [card]) h.playersNodup hamem
                rw [hs1a, Option.getD_some] at h2
                have hF1 : (handsCat (upd s.hands target
                    (targetHand.filter (fun c => !(c == card)))) s.players :
                    Multiset String) + ↑([card] : List String) =
                    ↑(handsCat s.hands s.players) := by
                  have hx : (handsCat (upd s.hands target
                      (targetHand.filter (fun c => !(c == card)))) s.players :
                      Multiset String) + ↑([card] : List String) +
                      ↑(targetHand.filter (fun c => !(c == card))) =
                      ↑(handsCat s.hands s.players) +
                      ↑(targetHand.filter (fun c => !(c == card))) := by
                    calc (handsCat (upd s.hands target
                        (targetHand.filter (fun c => !(c == card)))) s.players :
                        Multiset String) + ↑([card] : List String) +
                        ↑(targetHand.filter (fun c => !(c == card)))
                        = (handsCat (upd s.hands target
                          (targetHand.filter (fun c => !(c == card)))) s.players :
                          Multiset String) + (↑([card] : List String) +
                          ↑(targetHand.filter (fun c => !(c == card)))) := by abel
                      _ = (handsCat (upd s.hands target
                          (targetHand.filter (fun c => !(c == card)))) s.players :
                          Multiset String) + ↑targetHand := by rw [hpartm]
                      _ = ↑(handsCat s.hands s.players) +
                          ↑(targetHand.filter (fun c => !(c == card))) := h1
                  exact add_right_cancel hx
                have hF2 : (handsCat (upd (upd s.hands target
                    (targetHand.filter (fun c => !(c == card)))) asker
                    (askerHand ++ [card])) s.players : Multiset String) =
                    ↑(handsCat s.hands s.players) := by
                  have hx : (handsCat (upd (upd s.hands target
                      (targetHand.filter (fun c => !(c == card)))) asker
                      (askerHand ++ [card])) s.players : Multiset String) + ↑askerHand =
                      ↑(handsCat s.hands s.players) + ↑askerHand := by
                    calc (handsCat (upd (upd s.hands target
                        (targetHand.filter (fun c => !(c == card)))) asker
                        (askerHand ++ [card])) s.players : Multiset String) + ↑askerHand
                        = (handsCat (upd s.hands target
                          (targetHand.filter (fun c => !(c == card)))) s.players :
                          Multiset String) + ↑(askerHand ++ [card]) := h2
                      _ = (handsCat (upd s.hands target
                          (targetHand.filter (fun c => !(c == card)))) s.players :
                          Multiset String) + ↑([card] : List String) + ↑askerHand := by
                          simp only [← Multiset.coe_add]
                          abel
                      _ = ↑(handsCat s.hands s.players) + ↑askerHand := by rw [hF1]
                  exact add_right_cancel hx
                show ((handsCat (upd (upd s.hands target
                    (targetHand.filter (fun c => !(c == card)))) asker
                    (askerHand ++ [card])) s.players ++ s.removed ++ s.undealt :
                    List String) : Multiset String) = ↑createDeck
                have hgoal := h.conserve
                simp only [unionHands, ← Multiset.coe_add] at hgoal ⊢
                rw [hF2]
                exact hgoal
            next ha2 =>
              rw [hs1a] at ha2
              exact Option.noConfusion ha2
          next htc =>
            have htmem : target ∈ s.players := h.handsSub target (by simp [hT])
            exact ⟨h.playersNe, h.playersNodup, List.indexOf_lt_length.mpr htmem,
              h.handsSub, h.preHands, h.preRemoved, h.conserve⟩

/-- The invariant only reads the player list, hands, turn, started flag
and the two ghosts, so it transfers between states agreeing there. -/
theorem inv_of_eq_fields (s s1 : GameState) (h : Inv s)
    (hp : s1.players = s.players) (hh : s1.hands = s.hands)
    (hrm : s1.removed = s.removed) (hct : s1.currentTurn = s.currentTurn)
    (hst : s1.started = s.started) (hu : s1.undealt = s.undealt) : Inv s1 := by
  refine ⟨?_, ?_, ?_, ?_, ?_, ?_, ?_⟩
  · rw [hp]; exact h.playersNe
  · rw [hp]; exact h.playersNodup
  · rw [hct, hp]; exact h.turnLt
  · intro p hpne
    rw [hh] at hpne
    rw [hp]
    exact h.handsSub p hpne
  · intro hstf p
    rw [hst] at hstf
    rw [hh]
    exact h.preHands hstf p
  · intro hstf
    rw [hst] at hstf
    rw [hrm]
    exact h.preRemoved hstf
  · show ((handsCat s1.hands s1.players ++ s1.removed ++ s1.undealt : List String) :
      Multiset String) = ↑createDeck
    rw [hp, hh, hrm, hu]
    exact h.conserve

/-- Applying the removal loop to a state's hands and removed ghost
preserves the invariant. -/
theorem inv_removeLoop_state (s1 : GameState) (h1 : Inv s1)
    (a : List (String × List String)) :
    Inv { s1 with hands := (removeLoop a s1.hands s1.removed).1,
                  removed := (removeLoop a s1.hands s1.removed).2.1 } := by
  have hcons := removeLoop_conserve s1.players h1.playersNodup a s1.hands s1.removed
    h1.handsSub
  refine ⟨h1.playersNe, h1.playersNodup, h1.turnLt, hcons.2, ?_, ?_, ?_⟩
  · intro hstf p
    have hall := h1.preHands hstf
    rw [(removeLoop_unchanged a s1.hands s1.removed hall).1]
    exact hall p
  · intro hstf
    rw [(removeLoop_unchanged a s1.hands s1.removed (h1.preHands hstf)).2]
    exact h1.preRemoved hstf
  · show ((handsCat (removeLoop a s1.hands s1.removed).1 s1.players ++
        (removeLoop a s1.hands s1.removed).2.1 ++ s1.undealt : List String) :
        Multiset String) = ↑createDeck
    have hc := h1.conserve
    simp only [unionHands, ← Multiset.coe_add] at hc ⊢
    rw [hcons.1]
    exact hc

/-- The removal-and-finish continuation of a successful claim preserves
the invariant of the pre-claim state, the claimed-list push aside. -/
theorem inv_claimRemoval (s s1 : GameState) (a : List (String × List String))
    (log : String) (h : Inv s)
    (hp : s1.players = s.players) (hh : s1.hands = s.hands)
    (hrm : s1.removed = s.removed) (hct : s1.currentTurn = s.currentTurn)
    (hst : s1.started = s.started) (hu : s1.undealt = s.undealt) :
    Inv (claimRemoval s1 a log).1 := by
  have h1 : Inv s1 := inv_of_eq_fields s s1 h hp hh hrm hct hst hu
  have hbase := inv_removeLoop_state s1 h1 a
  rw [claimRemoval]
  split
  next hs' rem' hrem =>
    rw [hrem] at hbase
    exact inv_finish _ _ hbase
  next hs' rem' hrem =>
    rw [hrem] at hbase
    exact hbase

/-- `makeClaim` preserves the invariant. -/
theorem inv_claim (s : GameState) (suit : String) (a : List (String × List String))
    (h : Inv s) : Inv (claimSession s suit a).1 := by
  rw [claimSession]
  simp only []
  split
  · exact h
  next suitCards hsuit =>
    split
    next hlen =>
      split
      next hcor =>
        split
        next hsame =>
          refine inv_claimRemoval s _ a _ h ?_ ?_ ?_ ?_ ?_ ?_ <;> (split <;> rfl)
        next hsame =>
          apply inv_finish
          refine inv_of_eq_fields s _ h ?_ ?_ ?_ ?_ ?_ ?_ <;> (split <;> rfl)
      next hcor =>
        exact inv_finish _ _ h
    next hlen =>
      exact inv_finish _ _ h

/-- Every reachable state satisfies the invariant. -/
theorem reach_inv (s : GameState) (h : Reach s) : Inv s := by
  induction h with
  | create host => exact inv_init host
  | join s name _ ih => exact inv_join s name ih
  | assign s order _ _ ih => exact inv_assign s order ih
  | start s deck _ hperm ih => exact inv_start s deck ih hperm
  | ask s target card _ ih => exact inv_ask s target card ih
  | claimStep s suit a _ ih => exact inv_claim s suit a ih

/-- C3 (amended): in every reachable state the multiset union of all
players' hands, plus the cards removed by successful claims, plus the
cards the deal never handed out (the `floor(48 / n)` remainder), is
exactly the 48-card deck — no card is lost, duplicated or fabricated;
when the player count at dealing divides 48 the undealt remainder is
empty and the original statement holds. -/
theorem conservation_invariant (s : GameState) (h : Reach s) :
    (unionHands s ++ s.removed ++ s.undealt).Perm createDeck :=
  Multiset.coe_eq_coe.mp (reach_inv s h).conserve

/-- Witness for C3 (amended) at the concrete reachable four-player started
state, where the deal leaves no remainder. -/
theorem conservation_invariant_witness :
    (unionHands trA5 ++ trA5.removed ++ trA5.undealt).Perm createDeck ∧
    trA5.undealt = [] :=
  ⟨conservation_invariant trA5 reach_trA5, rfl⟩

end Fish
